import Mathlib

/-!
Verification of the tap-salesforce incremental extraction engine.

This file gives a shallow embedding, in Lean 4, of the pure core of
`tap_salesforce/client.py` and `tap_salesforce/__init__.py`:

* Python dictionaries over string keys/values are association lists with
  first-occurrence lookup and in-place update (`dictGet`, `dictInsert`,
  `dictUpdate`), mirroring CPython dict semantics (insertion order kept,
  assignment to an existing key keeps its position).
* `zip(*paginators)` is `pyZip` (lock-step, truncating at the shortest
  iterator; `zip()` of an empty argument list is empty).
* `Salesforce.merge_records` is `merge_records`; its loop body over one
  zipped position is `merge_position`, including the CPython falsiness test
  `if not primary_key:` (which treats the empty string like `None`).
* `Salesforce.construct_query`, `field_chunker` and the planning branch of
  `get_records` (single query / field-chunked queries / raise
  `QueryLengthExceedLimit`) are `construct_query`, `field_chunker` and
  `get_records_plan`.  `datetime.strftime('%Y-%m-%dT%H:%M:%SZ')` is
  `strftime_iso`, `set(fields)` is `pySetList` (CPython set iteration order
  is unspecified; the embedding fixes first-occurrence order, and every fact
  proved below about it is order-independent), `','.join` is `pyJoin`.
* The shrink-window arithmetic of `get_records`'s exception handler uses
  `timedelta(days=1).seconds`; `timedelta` attribute normalisation is
  embedded as `timedelta_seconds` (the `.seconds` attribute, i.e. the
  within-day component) next to `timedelta_total_seconds`
  (`.total_seconds()`).  Times are rational seconds, Python float
  arithmetic is embedded as exact rational arithmetic.
* `Salesforce._check_rest_quota_usage` is `check_rest_quota_usage`; the
  regex `^api-usage=(\d+)/(\d+)$` is `parseSforceLimitInfo` (ASCII digits;
  the regex-`$`-accepts-trailing-newline corner is not modelled).
* The retry loop of `sync` in `__init__.py` is `sync_loop`/`sync_run`,
  with the remote extraction abstracted as an attempt-indexed oracle, and
  the per-table loop of `main_impl` is `main_impl_loop`.
-/

/-! ## Python dictionaries (string-keyed) -/

/-- A Python dict with string keys and string values, as an insertion-ordered
association list. -/
abbrev PyRecord := List (String × String)

/-- `d[k]` lookup: first entry whose key equals `k` (keys are unique in a real
dict, so first = only). `none` models a `KeyError`. -/
def dictGet (d : PyRecord) (k : String) : Option String :=
  (d.find? (fun p => p.1 == k)).map (fun p => p.2)

/-- `d[k] = v`: if `k` is present, overwrite in place (keeping its position),
else append a new entry, as CPython dicts do. -/
def dictInsert (d : PyRecord) (k : String) (v : String) : PyRecord :=
  if d.any (fun p => p.1 == k) then
    d.map (fun p => if p.1 == k then (k, v) else p)
  else d ++ [(k, v)]

/-- `d.update(r)`: assign every entry of `r` into `d`, in `r`'s order. -/
def dictUpdate (d : PyRecord) (r : PyRecord) : PyRecord :=
  r.foldl (fun acc p => dictInsert acc p.1 p.2) d

/-! ## zip(*paginators) -/

/-- Auxiliary for `pyZip`: the first iterator is scanned structurally, the
others must all be non-empty for a tuple to be produced. -/
def pyZipAux {α : Type} : List α → List (List α) → List (List α)
  | [], _ => []
  | a :: s, rest =>
    if rest.all (fun t => !t.isEmpty) then
      (a :: rest.filterMap List.head?) :: pyZipAux s (rest.map List.tail)
    else []

/-- Python `zip(*iterables)`: lock-step tuples, stopping at the shortest
iterable; `zip()` with no arguments is empty. -/
def pyZip {α : Type} : List (List α) → List (List α)
  | [] => []
  | s :: rest => pyZipAux s rest

/-! ## merge_records -/

/-- The two exceptions the body of `merge_records` can raise: a `KeyError`
on `record[table.primary_key]`, or `PrimaryKeyNotMatch` carrying the two
conflicting primary-key values of its message. -/
inductive MergeErr : Type
  | keyError (key : String)
  | primaryKeyNotMatch (pk1 pk2 : String)
deriving DecidableEq, Repr

/-- The message of the `PrimaryKeyNotMatch` exception raised by
`merge_records`. -/
def primaryKeyNotMatchMessage (pk1 pk2 : String) : String :=
  "couldn't merge records with different primary keys: " ++ pk1 ++ " and " ++ pk2

/-- One iteration of `for records in zip(*paginators)`: fold the records of
one lock-step position into `merged_record`, tracking the `primary_key`
local variable (`none` = Python `None`).  `if not primary_key:` is CPython
falsiness, so an empty-string key is treated like `None` and overwritten. -/
def merge_position (pk : String) : List PyRecord → Option String → PyRecord →
    Except MergeErr PyRecord
  | [], _, acc => .ok acc
  | r :: rs, pkv, acc =>
    match dictGet r pk with
    | none => .error (.keyError pk)
    | some v =>
      let pkv2 := match pkv with
        | none => v
        | some s => if s = "" then v else s
      if pkv2 = v then merge_position pk rs (some pkv2) (dictUpdate acc r)
      else .error (.primaryKeyNotMatch pkv2 v)

/-- Generator semantics of `merge_records`: the records yielded before the
generator either finishes (`none`) or raises (`some e`). -/
def merge_records_go (pk : String) : List (List PyRecord) →
    List PyRecord × Option MergeErr
  | [] => ([], none)
  | pos :: rest =>
    match merge_position pk pos none [] with
    | .error e => ([], some e)
    | .ok r =>
      let t := merge_records_go pk rest
      (r :: t.1, t.2)

/-- `Salesforce.merge_records(paginators, table)` for a table whose
`primary_key` is `pk` (`merge_records` is only reached from the chunked
branch of `get_records`, which guards on `table.primary_key`). -/
def merge_records (pk : String) (paginators : List (List PyRecord)) :
    List PyRecord × Option MergeErr :=
  merge_records_go pk (pyZip paginators)

/-! ## Query planner: construct_query, field_chunker, get_records -/

/-- `MAX_QUERY_LENGTH` from `client.py`. -/
def MAX_QUERY_LENGTH : ℕ := 10000

/-- The fields of `Table` that the query planner reads (pydantic model in
`client.py`; the sync-flags are irrelevant to the planner). -/
structure PyTable : Type where
  name : String
  primary_key : Option String
  replication_key : Option String
deriving DecidableEq, Repr

/-- Python `','.join(l)` (for an arbitrary separator). -/
def pyJoin (sep : String) : List String → String
  | [] => ""
  | [x] => x
  | x :: y :: xs => x ++ sep ++ pyJoin sep (y :: xs)

/-- Auxiliary for `pySetList`: drop the elements already `seen`. -/
def pySetAux : List String → List String → List String
  | [], _ => []
  | x :: xs, seen =>
    if x ∈ seen then pySetAux xs seen else x :: pySetAux xs (x :: seen)

/-- Python `set(fields)`: duplicates removed.  CPython iterates a set in an
unspecified order; the embedding fixes first-occurrence order, and every fact
proved about `pySetList` below (length, membership) is order-independent. -/
def pySetList (l : List String) : List String := pySetAux l []

/-- A naive (proleptic, no validity constraints) datetime, enough to render
`strftime('%Y-%m-%dT%H:%M:%SZ')` faithfully. -/
structure PyDateTime : Type where
  year : ℕ
  month : ℕ
  day : ℕ
  hour : ℕ
  minute : ℕ
  second : ℕ
deriving DecidableEq, Repr

/-- The ASCII digit character of `n % 10`. -/
def digitChar (n : ℕ) : Char := Char.ofNat (48 + n % 10)

/-- Decimal digits of `n`, most significant first, with explicit fuel so that
kernel reduction works (`fuel ≥ n` suffices, since a number has at most as
many digits as its value when positive). -/
def natDigits : ℕ → ℕ → List Char
  | 0, n => [digitChar n]
  | fuel + 1, n => if n < 10 then [digitChar n] else natDigits fuel (n / 10) ++ [digitChar n]

/-- Python `str(n)` for a non-negative int. -/
def natToString (n : ℕ) : String := ⟨natDigits n n⟩

/-- Zero-pad to two digits (`%m`, `%d`, `%H`, `%M`, `%S`). -/
def pad2 (n : ℕ) : String := if n < 10 then "0" ++ natToString n else natToString n

/-- Zero-pad to four digits (`%Y`, for years up to 9999). -/
def pad4 (n : ℕ) : String :=
  if n < 10 then "000" ++ natToString n
  else if n < 100 then "00" ++ natToString n
  else if n < 1000 then "0" ++ natToString n
  else natToString n

/-- `dt.strftime('%Y-%m-%dT%H:%M:%SZ')`. -/
def strftime_iso (t : PyDateTime) : String :=
  pad4 t.year ++ "-" ++ pad2 t.month ++ "-" ++ pad2 t.day ++ "T" ++
    pad2 t.hour ++ ":" ++ pad2 t.minute ++ ":" ++ pad2 t.second ++ "Z"

/-- The tenant-specific extra filter of `construct_query` (the
`squareinc.my.salesforce.com` branch). -/
def afterpayFilter : String :=
  " AND (Business_Unit__c INCLUDES (\x27Afterpay\x27) OR Business_Unit__c INCLUDES (\x27afterpay\x27)) "

/-- `Salesforce.construct_query(table, fields, start_date, end_date, limit)`.
`instance_url` is the `self.instance_url` attribute; the Python default
`end_date = datetime.now()` is resolved by the caller, so `ed` is always
explicit here. -/
def construct_query (instance_url : Option String) (table : PyTable)
    (fields : List String) (sd ed : PyDateTime) (lim : Option ℕ) : String :=
  let select_stm := "SELECT " ++ pyJoin "," (pySetList fields) ++ " "
  let from_stm := "FROM " ++ table.name ++ " "
  let ws : String × String :=
    match table.replication_key with
    | some rk =>
      let base := "WHERE " ++ rk ++ " >= " ++ strftime_iso sd ++ " " ++
        " AND " ++ rk ++ " < " ++ strftime_iso ed ++ " "
      let w :=
        if instance_url = some "https://squareinc.my.salesforce.com" ∧
            table.name ∈ ["Account", "Contact", "Lead", "Opportunity"] then
          base ++ afterpayFilter
        else base
      let ob := "ORDER BY " ++ rk ++ " ASC " ++
        (match table.primary_key with
         | some pk => "," ++ pk ++ " ASC"
         | none => "")
      (w, ob)
    | none => ("", "")
  let limit_stm := match lim with
    | some n => "LIMIT " ++ natToString n
    | none => ""
  select_stm ++ " " ++ from_stm ++ " " ++ ws.1 ++ " " ++ ws.2 ++ " " ++ limit_stm

/-- The loop of `Salesforce.field_chunker`, carrying the current
`field_chunk` and its accumulated `length`; `rest = []` is the
`index == len(fields)` test. -/
def field_chunker_aux (size : ℕ) : List String → List String → ℕ →
    List (List String)
  | [], _, _ => []
  | f :: rest, chunk, len =>
    let chunk2 := chunk ++ [f]
    let len2 := len + f.length
    if len2 > size ∨ rest = [] then chunk2 :: field_chunker_aux size rest [] 0
    else field_chunker_aux size rest chunk2 len2

/-- `Salesforce.field_chunker(fields, size)`, materialised. -/
def field_chunker (fields : List String) (size : ℕ) : List (List String) :=
  field_chunker_aux size fields [] 0

/-- What the body of `get_records` decides to do with one table + window
before any record is pulled (its pure planning skeleton). -/
inductive GetRecordsPlan : Type
  | single (query : String)
  | chunked (chunks : List (List String)) (queries : List String)
  | queryLengthExceedLimit
  | typeError
deriving Repr

/-- The planning branch of `Salesforce.get_records`: run the full query if it
fits in `MAX_QUERY_LENGTH`; otherwise, with a primary key, split the fields
with `field_chunker(fields, 8000)`, append `table.primary_key` and
`table.replication_key` to every chunk and build one query per chunk (to be
merged by `merge_records`); with no primary key raise
`QueryLengthExceedLimit`.  `typeError` records the Python `TypeError` that
`','.join` would raise when `table.replication_key is None` is appended in
the chunked branch. -/
def get_records_plan (instance_url : Option String) (table : PyTable)
    (fields : List String) (sd ed : PyDateTime) (lim : Option ℕ) :
    GetRecordsPlan :=
  let query := construct_query instance_url table fields sd ed lim
  if query.length ≤ MAX_QUERY_LENGTH then .single query
  else
    match table.primary_key with
    | some pk =>
      match table.replication_key with
      | some rk =>
        let chunks := (field_chunker fields 8000).map (fun c => c ++ [pk, rk])
        .chunked chunks
          (chunks.map (fun c => construct_query instance_url table c sd ed lim))
      | none => .typeError
    | none => .queryLengthExceedLimit

/-! ## Quota governor: _check_rest_quota_usage -/

/-- Split a character list on every occurrence of `c` (like
`str.split('/')`): always returns at least one (possibly empty) part. -/
def splitOnChar (c : Char) : List Char → List (List Char)
  | [] => [[]]
  | x :: xs =>
    match splitOnChar c xs with
    | [] => [[]]
    | h :: t => if x = c then [] :: h :: t else (x :: h) :: t

/-- The value of a decimal digit list, most significant first (`int(s)` for a
digit-only string). -/
def decDigitsToNat (l : List Char) : ℕ :=
  l.foldl (fun acc ch => acc * 10 + (ch.toNat - 48)) 0

/-- `\d+` followed by end of input: a non-empty, all-ASCII-digit group,
parsed as an int. -/
def parseNatDigits (l : List Char) : Option ℕ :=
  if l ≠ [] ∧ l.all (fun ch => ch.isDigit) then some (decDigitsToNat l) else none

/-- The regex `^api-usage=(\d+)/(\d+)$` of `_check_rest_quota_usage`, applied
to the `Sforce-Limit-Info` header value: both groups parsed as ints. -/
def parseSforceLimitInfo (s : String) : Option (ℕ × ℕ) :=
  if "api-usage=".data.isPrefixOf s.data then
    match splitOnChar '/' (s.data.drop 10) with
    | [u, t] =>
      match parseNatDigits u, parseNatDigits t with
      | some un, some tn => some (un, tn)
      | _, _ => none
    | _ => none
  else none

/-- Outcome of one `_check_rest_quota_usage` call.  `exceededTotal` and
`exceededPerRun` are the two distinct `TapSalesforceQuotaExceededException`
raise sites; `typeErrorNoHeader` is the `TypeError` that `re.search` raises
on a `None` header; `zeroDivision` is `used / total` with `total == 0`. -/
inductive QuotaCheckResult : Type
  | ok
  | typeErrorNoHeader
  | zeroDivision
  | exceededTotal (used_percent : ℚ)
  | exceededPerRun (requests_count_percent : ℚ)
deriving DecidableEq, Repr

/-- Message of the total-quota raise site, with the two interpolated floats
already rendered. -/
def totalQuotaMessage (used_percent quota_percent_total : String) : String :=
  "Salesforce Daily Quota Usage: " ++ used_percent ++
    "% is above the configured limit of " ++ quota_percent_total ++
    "% of total quota."

/-- Message of the per-run raise site, with the two interpolated floats
already rendered. -/
def perRunQuotaMessage (requests_count_percent quota_percent_per_run : String) : String :=
  "Salesforce Daily Quota Usage: this execution has spent " ++
    requests_count_percent ++
    "% of the total quota, aborting due to configured limit of " ++
    quota_percent_per_run ++ "% of total quota."

/-- `Salesforce.__init__` default for `quota_percent_total`. -/
def quota_percent_total_default : ℚ := 80

/-- `Salesforce.__init__` default for `quota_percent_per_run`. -/
def quota_percent_per_run_default : ℚ := 25

/-- `Salesforce._check_rest_quota_usage(headers)`.  `header` is
`headers.get("Sforce-Limit-Info")`, `metrics_http_requests` the
`self._metrics_http_requests` counter (already incremented by
`_make_request`), and the two quota arguments the configured ceilings.
Python floats are embedded as exact rationals. -/
def check_rest_quota_usage (header : Option String) (metrics_http_requests : ℕ)
    (quota_percent_total quota_percent_per_run : ℚ) : QuotaCheckResult :=
  match header with
  | none => .typeErrorNoHeader
  | some s =>
    match parseSforceLimitInfo s with
    | none => .ok
    | some (used, total) =>
      if total = 0 then .zeroDivision
      else
        let used_percent : ℚ := ((used : ℚ) / (total : ℚ)) * 100
        if used_percent > quota_percent_total then .exceededTotal used_percent
        else
          let requests_count_percent : ℚ := (metrics_http_requests : ℚ) / (total : ℚ)
          if requests_count_percent > quota_percent_per_run then
            .exceededPerRun requests_count_percent
          else .ok

/-! ## Adaptive window shrinker: the except-branch of get_records -/

/-- The `.seconds` attribute of `timedelta(days=days, seconds=seconds)`:
after normalisation it is the within-day component, `total mod 86400`.
In particular `timedelta(days=1).seconds = 0`. -/
def timedelta_seconds (days seconds : ℤ) : ℤ := (days * 86400 + seconds) % 86400

/-- The `.total_seconds()` method of the same `timedelta` (as an integer of
seconds; the claims only use whole days). -/
def timedelta_total_seconds (days seconds : ℤ) : ℤ := days * 86400 + seconds

/-- The guard of `get_records`'s exception handler deciding whether a
`QUERY_TIMEOUT` / `OPERATION_TOO_LARGE` error is re-raised instead of
shrinking: `nth = (end_date - start_date).total_seconds() / shrink_window_factor`
compared with `timedelta(days=1).seconds`.  Window bounds are rational
seconds, `true` means re-raise. -/
def get_records_reraise (startSec endSec : ℚ) (shrink_window_factor : ℕ) : Bool :=
  decide ((endSec - startSec) / (shrink_window_factor : ℚ) <
    ((timedelta_seconds 1 0 : ℤ) : ℚ))

/-- The sub-windows enumerated by the shrink loop
`for i in range(shrink_window_factor)`: the `i`-th recursive call gets
`[start + i*nth, start + (i+1)*nth)` with `nth = (e - s)/factor`. -/
def shrink_subwindows (s e : ℚ) (shrink_window_factor : ℕ) : List (ℚ × ℚ) :=
  let nth := (e - s) / (shrink_window_factor : ℚ)
  (List.range shrink_window_factor).map
    (fun (i : ℕ) => (s + (i : ℚ) * nth, s + ((i : ℚ) + 1) * nth))

/-! ## The sync retry loop of `__init__.py` -/

/-- What one attempt of `sf.get_records(...)` streams back to `sync`, with
records abstracted to their replication-key values (the only field `sync`
reads): the values yielded in order, then either normal exhaustion
(`pkMismatch = false`) or a `PrimaryKeyNotMatch` raise (`true`). -/
structure SyncAttemptResult : Type where
  rks : List ℚ
  pkMismatch : Bool

/-- Observable outcome of `sync`: every `start_time` passed to
`get_records` (one per attempt, in order), every record emitted
(`stream.write_record`) across attempts, and whether the final attempt
returned (`ok = true`) or the `PrimaryKeyNotMatch` was re-raised. -/
structure SyncRun : Type where
  starts : List ℚ
  emitted : List ℚ
  ok : Bool
deriving DecidableEq, Repr

/-- The `while True` retry loop of `sync`: `extract n s` is what attempt `n`
of `get_records` yields when started at window start `s`.  `attempt` and
`state_value` are the loop's mutable locals: on a `PrimaryKeyNotMatch`, when
`attempt + 1 ≤ 5` the loop retries with `start_time = state_value` (the
replication key of the last record emitted so far); otherwise it re-raises. -/
def sync_loop (extract : ℕ → ℚ → SyncAttemptResult) :
    ℕ → ℚ → ℚ → SyncRun
  | attempt, start_time, state_value =>
    let r := extract attempt start_time
    let sv := match r.rks.getLast? with
      | some v => v
      | none => state_value
    if r.pkMismatch then
      if attempt + 1 ≤ 5 then
        let rest := sync_loop extract (attempt + 1) sv sv
        ⟨start_time :: rest.starts, r.rks ++ rest.emitted, rest.ok⟩
      else ⟨[start_time], r.rks, false⟩
    else ⟨[start_time], r.rks, true⟩
termination_by attempt _ _ => 6 - attempt
decreasing_by omega

/-- `sync(sf, stream, table, fields, start_time, end_time)`:
`attempt = 0` and `state_value = start_time` initially. -/
def sync_run (extract : ℕ → ℚ → SyncAttemptResult) (start_time : ℚ) : SyncRun :=
  sync_loop extract 0 start_time start_time

/-! ## The per-table loop of main_impl -/

/-- The exceptions that can escape one table's `sync` call, as seen by the
`for table in sf.get_tables(...)` loop of `main_impl`. -/
inductive TapRunError : Type
  | httpError
  | queryLengthExceedLimit
  | primaryKeyNotMatch
  | other
deriving DecidableEq, Repr

/-- The per-table loop of `main_impl`: each list entry is the outcome of one
table's `sync` (`none` = completed).  The `try/except` around `sync` catches
only `requests.exceptions.HTTPError`, logs, and then unconditionally
`raise`s, so every exception aborts the loop; there is no per-table
skip-and-continue for sync failures.  Returns the number of tables fully
synced before the run ended and the propagated error, if any. -/
def main_impl_loop : List (Option TapRunError) → ℕ × Option TapRunError
  | [] => (0, none)
  | none :: rest =>
    let r := main_impl_loop rest
    (r.1 + 1, r.2)
  | some e :: _ => (0, some e)

/-! ## Shared concrete data for the planner claims -/

/-- The Account table as built by `get_tables`. -/
def accountTable : PyTable := ⟨"Account", some "Id", some "SystemModstamp"⟩

/-- A concrete window start used by the planner claims. -/
def sampleStart : PyDateTime := ⟨2024, 1, 2, 3, 4, 5⟩

/-- A concrete window end used by the planner claims. -/
def sampleEnd : PyDateTime := ⟨2024, 2, 3, 4, 5, 6⟩

/-! ## C7 -/

/-- A single 10100-character field name, making the rendered query exceed
`MAX_QUERY_LENGTH`. -/
def bigField : String := ⟨List.replicate 10100 'a'⟩

/-- A table with no primary key (and no replication key). -/
def noKeyTable : PyTable := ⟨"NoKeyTable", none, none⟩

/-- Stream A of the spec's merge example. -/
def streamA : List PyRecord :=
  [[("Id", "1"), ("Name", "A")], [("Id", "2"), ("Name", "B")]]

/-- Stream B of the spec's merge example. -/
def streamB : List PyRecord :=
  [[("Id", "1"), ("Industry", "Tech")], [("Id", "2"), ("Industry", "Health")]]

/-- Stream B of the spec's merge example, reordered (desync case). -/
def streamBrev : List PyRecord :=
  [[("Id", "2"), ("Industry", "Tech")], [("Id", "1"), ("Industry", "Health")]]

/-! ## C6: length accounting for field chunking -/

/-- Total character count of a field list. -/
def sumLen (l : List String) : ℕ := (l.map String.length).sum

/-- The `i`-th synthetic field name: `"FX"` followed by four decimal digits
of `i` — six characters, pairwise distinct for `i < 2000` (indeed < 10000). -/
def mkFieldName (i : ℕ) : String :=
  ⟨['F', 'X', digitChar (i / 1000), digitChar (i / 100), digitChar (i / 10),
    digitChar i]⟩

/-- The claim's table shape: 2000 field names of 6 characters each. -/
def fields2000 : List String := (List.range 2000).map mkFieldName

example :
    merge_records "Id"
      [[[("Id", "1"), ("Name", "A")], [("Id", "2"), ("Name", "B")]],
       [[("Id", "1"), ("Industry", "Tech")], [("Id", "2"), ("Industry", "Health")]]] =
    ([[("Id", "1"), ("Name", "A"), ("Industry", "Tech")],
      [("Id", "2"), ("Name", "B"), ("Industry", "Health")]], none) := by decide

example :
    merge_records "Id"
      [[[("Id", "1"), ("Name", "A")], [("Id", "2"), ("Name", "B")]],
       [[("Id", "2"), ("Industry", "Tech")], [("Id", "1"), ("Industry", "Health")]]] =
    ([], some (.primaryKeyNotMatch "1" "2")) := by decide

example :
    construct_query none
      ⟨"Account", some "Id", some "SystemModstamp"⟩ ["Name", "Id"]
      ⟨2024, 1, 2, 3, 4, 5⟩ ⟨2024, 2, 3, 4, 5, 6⟩ none =
    "SELECT Name,Id  FROM Account  WHERE SystemModstamp >= 2024-01-02T03:04:05Z  AND SystemModstamp < 2024-02-03T04:05:06Z  ORDER BY SystemModstamp ASC ,Id ASC " := by
  decide

example : field_chunker ["aa", "bb", "cc", "dd"] 3 = [["aa", "bb"], ["cc", "dd"]] := by decide

example : parseSforceLimitInfo "api-usage=85/100" = some (85, 100) := by decide
example : parseSforceLimitInfo "api-usage=85/" = none := by rfl
example : parseSforceLimitInfo "api-usage=85" = none := by rfl
example : check_rest_quota_usage (some "api-usage=85/100") 3 80 25 =
    .exceededTotal 85 := by
  have h : parseSforceLimitInfo "api-usage=85/100" = some (85, 100) := by decide
  simp only [check_rest_quota_usage, h]
  norm_num

/-! ## C1 -/

/-- C1: the claim says a timed-out window whose shrunk sub-window
`nth = (end - start)/factor` would be under one day (86400 s) is re-raised,
and that shrinking only proceeds for sub-windows of at least one day.  The
code compares `nth < timedelta(days=1).seconds`, and the `.seconds`
attribute of a one-day timedelta is `0` (the within-day remainder), not
`86400` (`.total_seconds()`): at a one-hour window with factor 2,
`nth = 1800 < 86400`, yet the code does not re-raise and shrinks further.
The guard contradicts the code's own comment ("minimum allowed window size
to get_records from before raising error"), so this is a slip in the code,
not in the claim. -/
theorem C1_shrink_floor_dead_code :
    timedelta_seconds 1 0 = 0 ∧
    timedelta_total_seconds 1 0 = 86400 ∧
    get_records_reraise 0 3600 2 = false ∧
    (3600 - 0 : ℚ) / 2 < 86400 := by
  refine ⟨by decide, by decide, ?_, by norm_num⟩
  norm_num [get_records_reraise, timedelta_seconds]

/-! ## C9 -/

/-- C9: after a request whose `Sforce-Limit-Info` header parses as
`api-usage=used/total` (with `total > 0`, else Python's division raises),
if `(used/total)*100` exceeds the configured `quota_percent_total`, then
`_check_rest_quota_usage` raises at the total-quota site
(`TapSalesforceQuotaExceededException`), which propagates and ends the run. -/
theorem C9_total_quota_veto (header : String) (used total requests : ℕ)
    (qt qpr : ℚ)
    (hparse : parseSforceLimitInfo header = some (used, total))
    (htotal : 0 < total)
    (hq : (used : ℚ) / (total : ℚ) * 100 > qt) :
    check_rest_quota_usage (some header) requests qt qpr =
      .exceededTotal ((used : ℚ) / (total : ℚ) * 100) := by
  simp only [check_rest_quota_usage, hparse]
  rw [if_neg (by omega), if_pos hq]

/-- Witness for C9: the spec's own example, a header reporting 85% against
the default 80% ceiling. -/
theorem C9_total_quota_veto_witness :
    parseSforceLimitInfo "api-usage=85/100" = some (85, 100) ∧
    (0 : ℕ) < 100 ∧
    (85 : ℚ) / (100 : ℚ) * 100 > quota_percent_total_default ∧
    check_rest_quota_usage (some "api-usage=85/100") 3
        quota_percent_total_default quota_percent_per_run_default =
      .exceededTotal ((85 : ℚ) / (100 : ℚ) * 100) :=
  ⟨by decide, by decide, by norm_num [quota_percent_total_default],
    C9_total_quota_veto "api-usage=85/100" 85 100 3
      quota_percent_total_default quota_percent_per_run_default
      (by decide) (by decide)
      (by norm_num [quota_percent_total_default])⟩

/-! ## C2 -/

/-- C2: after a request whose header parses as `api-usage=used/total`
(`total > 0`) and which does not trip the total-quota check, if this run's
own request count divided by `total` exceeds the configured
`quota_percent_per_run` (default `25.0`), `_check_rest_quota_usage` raises
`TapSalesforceQuotaExceededException` at the per-run site; its message
template differs from the total-quota template for any equal-length
renderings of the interpolated numbers (the two raise sites are the
`exceededPerRun` / `exceededTotal` constructors). -/
theorem C2_per_run_quota (header : String) (used total requests : ℕ)
    (qt qpr : ℚ)
    (hparse : parseSforceLimitInfo header = some (used, total))
    (htotal : 0 < total)
    (hfirst : ¬ ((used : ℚ) / (total : ℚ) * 100 > qt))
    (hper : (requests : ℚ) / (total : ℚ) > qpr) :
    check_rest_quota_usage (some header) requests qt qpr =
      .exceededPerRun ((requests : ℚ) / (total : ℚ)) ∧
    (∀ a b c d : String, a.length = c.length → b.length = d.length →
      perRunQuotaMessage a b ≠ totalQuotaMessage c d) := by
  constructor
  · simp only [check_rest_quota_usage, hparse]
    rw [if_neg (by omega), if_neg hfirst, if_pos hper]
  · intro a b c d hac hbd hEq
    have hlen := congrArg String.length hEq
    simp only [perRunQuotaMessage, totalQuotaMessage, String.length_append] at hlen
    have l1 : ("Salesforce Daily Quota Usage: this execution has spent ").length = 55 := by decide
    have l2 : ("% of the total quota, aborting due to configured limit of ").length = 58 := by decide
    have l3 : ("% of total quota.").length = 17 := by decide
    have l4 : ("Salesforce Daily Quota Usage: ").length = 30 := by decide
    have l5 : ("% is above the configured limit of ").length = 35 := by decide
    omega

/-- Witness for C2: the default per-run ceiling 25.0, a run whose request
count is 26× the reported total capacity (the raw-fraction comparison the
code performs), and a header at 10% total usage. -/
theorem C2_per_run_quota_witness :
    parseSforceLimitInfo "api-usage=10/100" = some (10, 100) ∧
    (0 : ℕ) < 100 ∧
    ¬ ((10 : ℚ) / (100 : ℚ) * 100 > quota_percent_total_default) ∧
    (2600 : ℚ) / (100 : ℚ) > quota_percent_per_run_default ∧
    (check_rest_quota_usage (some "api-usage=10/100") 2600
        quota_percent_total_default quota_percent_per_run_default =
      .exceededPerRun ((2600 : ℚ) / (100 : ℚ)) ∧
    (∀ a b c d : String, a.length = c.length → b.length = d.length →
      perRunQuotaMessage a b ≠ totalQuotaMessage c d)) :=
  ⟨by decide, by decide, by norm_num [quota_percent_total_default],
    by norm_num [quota_percent_per_run_default],
    C2_per_run_quota "api-usage=10/100" 10 100 2600
      quota_percent_total_default quota_percent_per_run_default
      (by decide) (by decide)
      (by norm_num [quota_percent_total_default])
      (by norm_num [quota_percent_per_run_default])⟩

theorem string_mk_length (l : List Char) : (String.mk l).length = l.length := rfl

theorem bigField_query_length :
    (construct_query none noKeyTable [bigField] sampleStart sampleEnd none).length
      = 10128 := by
  have hset : pySetList [bigField] = [bigField] := by
    simp [pySetList, pySetAux]
  have hjoin : pyJoin "," [bigField] = bigField := by simp [pyJoin]
  have hbig : bigField.length = 10100 := by
    rw [bigField, string_mk_length, List.length_replicate]
  have h1 : ("SELECT ").length = 7 := by decide
  have h2 : (" ").length = 1 := by decide
  have h3 : ("FROM ").length = 5 := by decide
  have h4 : ("NoKeyTable").length = 10 := by decide
  have h5 : ("").length = 0 := by decide
  simp only [construct_query, noKeyTable, hset, hjoin, String.length_append,
    hbig, h1, h2, h3, h4, h5]

/-- Counterexample for C7: a run over two tables where the first table has
no primary key and a query above the ceiling.  `get_records` does raise
`QueryLengthExceedLimit`, but the claim's skip-and-continue half is false:
the per-table loop of `main_impl` catches only `requests.exceptions.HTTPError`
(and even then re-raises), so the error aborts the run — the second table is
never synced (`0` tables complete, not `1`), where skip-and-continue would
give `(1, none)`. -/
theorem C7_counterexample :
    get_records_plan none noKeyTable [bigField] sampleStart sampleEnd none =
      .queryLengthExceedLimit ∧
    main_impl_loop [some .queryLengthExceedLimit, none] =
      (0, some .queryLengthExceedLimit) ∧
    main_impl_loop [some .queryLengthExceedLimit, none] ≠ (1, none) := by
  refine ⟨?_, rfl, by decide⟩
  simp only [get_records_plan]
  rw [if_neg (by rw [bigField_query_length]; norm_num [MAX_QUERY_LENGTH])]
  rfl

/-- C7 (amended): when the rendered query of a table with no primary key
exceeds the 10000-character ceiling, `get_records` raises
`QueryLengthExceedLimit`; the failure is not table-specific: `main_impl`'s
per-table loop catches only HTTP errors (re-raising even those), so the
exception propagates, the run aborts, and the remaining tables are not
synced. -/
theorem C7_query_too_long_aborts_run (instance_url : Option String)
    (table : PyTable) (fields : List String) (sd ed : PyDateTime)
    (lim : Option ℕ)
    (hpk : table.primary_key = none)
    (hlen : ¬ ((construct_query instance_url table fields sd ed lim).length ≤
      MAX_QUERY_LENGTH))
    (rest : List (Option TapRunError)) :
    get_records_plan instance_url table fields sd ed lim =
      .queryLengthExceedLimit ∧
    main_impl_loop (some .queryLengthExceedLimit :: rest) =
      (0, some .queryLengthExceedLimit) := by
  constructor
  · simp only [get_records_plan, hpk]
    rw [if_neg hlen]
  · rfl

/-- Witness for C7 (amended) at the concrete no-primary-key table with an
over-long query, with one further table pending. -/
theorem C7_query_too_long_aborts_run_witness :
    noKeyTable.primary_key = none ∧
    ¬ ((construct_query none noKeyTable [bigField] sampleStart sampleEnd
        none).length ≤ MAX_QUERY_LENGTH) ∧
    (get_records_plan none noKeyTable [bigField] sampleStart sampleEnd none =
      .queryLengthExceedLimit ∧
    main_impl_loop [some .queryLengthExceedLimit, none] =
      (0, some .queryLengthExceedLimit)) :=
  ⟨rfl, by rw [bigField_query_length]; norm_num [MAX_QUERY_LENGTH],
    C7_query_too_long_aborts_run none noKeyTable [bigField] sampleStart
      sampleEnd none rfl
      (by rw [bigField_query_length]; norm_num [MAX_QUERY_LENGTH]) [none]⟩

/-! ## C8 -/

theorem sync_loop_starts_head (extract : ℕ → ℚ → SyncAttemptResult)
    (n : ℕ) (s v : ℚ) :
    ∃ t, (sync_loop extract n s v).starts = s :: t := by
  rw [sync_loop]
  by_cases h1 : (extract n s).pkMismatch
  · by_cases h2 : n + 1 ≤ 5
    · simp [h1, h2]
    · simp [h1, h2]
  · simp [h1]

theorem sync_loop_allfail (extract : ℕ → ℚ → SyncAttemptResult)
    (hfail : ∀ n s, (extract n s).pkMismatch = true) :
    ∀ k n s v, 5 - n = k →
      (sync_loop extract n s v).ok = false ∧
      (sync_loop extract n s v).starts.length = k + 1 := by
  intro k
  induction k with
  | zero =>
    intro n s v hk
    rw [sync_loop]
    have h2 : ¬ (n + 1 ≤ 5) := by omega
    simp [hfail, h2]
  | succ k ih =>
    intro n s v hk
    rw [sync_loop]
    have h2 : n + 1 ≤ 5 := by omega
    have := ih (n + 1) (match (extract n s).rks.getLast? with
      | some w => w
      | none => v)
      (match (extract n s).rks.getLast? with
      | some w => w
      | none => v) (by omega)
    simp only [hfail, h2, if_pos, if_true]
    constructor
    · exact this.1
    · simp only [List.length_cons, this.2]

/-- C8: when `sync` catches `PrimaryKeyNotMatch` it restarts the extraction
with the window start reset to `state_value` — the replication-key value of
the last record emitted so far (the last checkpointed bookmark), not the
original start — and the retry is bounded: with every attempt failing, the
loop performs the initial attempt plus exactly 5 retries (6 `get_records`
calls) and then re-raises (`ok = false`).  `b` is the bookmark left by the
records of attempt 0, and the second element of `starts` shows attempt 1
starting from `b`. -/
theorem C8_sync_retry_from_bookmark (extract : ℕ → ℚ → SyncAttemptResult)
    (s0 b : ℚ)
    (hfail : ∀ n s, (extract n s).pkMismatch = true)
    (hfirst : (extract 0 s0).rks.getLast? = some b) :
    (sync_run extract s0).ok = false ∧
    (sync_run extract s0).starts.length = 6 ∧
    ∃ tail, (sync_run extract s0).starts = s0 :: b :: tail := by
  have hall := sync_loop_allfail extract hfail 5 0 s0 s0 rfl
  refine ⟨hall.1, hall.2, ?_⟩
  unfold sync_run
  rw [sync_loop]
  have h2 : (0 : ℕ) + 1 ≤ 5 := by omega
  simp only [hfail, h2, if_pos, if_true, hfirst]
  obtain ⟨t, ht⟩ := sync_loop_starts_head extract 1 b b
  exact ⟨t, by rw [ht]⟩

/-- Witness for C8: an oracle that always yields one record with
replication key 42 and then raises `PrimaryKeyNotMatch`, started at 0. -/
theorem C8_sync_retry_from_bookmark_witness :
    (∀ n s, ((fun (_ : ℕ) (_ : ℚ) => SyncAttemptResult.mk [42] true) n s).pkMismatch = true) ∧
    (((fun (_ : ℕ) (_ : ℚ) => SyncAttemptResult.mk [42] true) 0 0).rks.getLast? = some 42) ∧
    ((sync_run (fun (_ : ℕ) (_ : ℚ) => SyncAttemptResult.mk [42] true) 0).ok = false ∧
     (sync_run (fun (_ : ℕ) (_ : ℚ) => SyncAttemptResult.mk [42] true) 0).starts.length = 6 ∧
     ∃ tail, (sync_run (fun (_ : ℕ) (_ : ℚ) => SyncAttemptResult.mk [42] true) 0).starts =
       0 :: 42 :: tail) :=
  ⟨fun _ _ => rfl, rfl,
    C8_sync_retry_from_bookmark (fun _ _ => SyncAttemptResult.mk [42] true) 0 42
      (fun _ _ => rfl) rfl⟩

/-! ## Dictionary lemmas for the merge claims -/

theorem dictGet_eq_none_of_not_mem_keys (d : PyRecord) (k : String)
    (h : k ∉ d.map Prod.fst) : dictGet d k = none := by
  unfold dictGet
  rw [List.find?_eq_none.2]
  · rfl
  · intro p hp hpk
    exact h (List.mem_map.2 ⟨p, hp, by simpa [beq_iff_eq] using hpk⟩)

theorem find?_map_insert (k v : String) :
    ∀ d : PyRecord, d.any (fun p => p.1 == k) = true →
      (d.map (fun p => if p.1 == k then (k, v) else p)).find?
        (fun p => p.1 == k) = some (k, v) := by
  intro d
  induction d with
  | nil => intro h; simp at h
  | cons p ds ih =>
    intro h
    cases hp : (p.1 == k) with
    | false =>
      simp only [List.map_cons, hp, Bool.false_eq_true, if_false]
      rw [List.find?_cons_of_neg _ (by simp [hp])]
      exact ih (by simpa [hp] using h)
    | true =>
      simp only [List.map_cons, hp, if_true]
      exact List.find?_cons_of_pos _ (by simp)

theorem dictGet_insert_same (d : PyRecord) (k v : String) :
    dictGet (dictInsert d k v) k = some v := by
  unfold dictInsert
  by_cases hany : d.any (fun p => p.1 == k)
  · rw [if_pos hany]
    unfold dictGet
    rw [find?_map_insert k v d hany]
    rfl
  · rw [if_neg hany]
    unfold dictGet
    rw [List.find?_append,
      List.find?_eq_none.2 (fun q hq hqk => hany (List.any_eq_true.2 ⟨q, hq, hqk⟩)),
      Option.none_or, List.find?_cons_of_pos _ (by simp)]
    rfl

theorem dictGet_cons_ne (p : String × String) (r : PyRecord) (k : String)
    (h : (p.1 == k) = false) : dictGet (p :: r) k = dictGet r k := by
  unfold dictGet
  simp only [List.find?_cons, h]

theorem dictGet_cons_eq (p : String × String) (r : PyRecord) (k : String)
    (h : (p.1 == k) = true) : dictGet (p :: r) k = some p.2 := by
  unfold dictGet
  simp only [List.find?_cons, h, Option.map_some']

theorem find?_map_insert_other (k v k' : String) (hk : k' ≠ k) :
    ∀ d : PyRecord,
      (d.map (fun p => if p.1 == k then (k, v) else p)).find?
        (fun p => p.1 == k') = (d.find? (fun p => p.1 == k')).map
          (fun p => if p.1 == k then (k, v) else p) := by
  intro d
  induction d with
  | nil => rfl
  | cons p ds ih =>
    cases hp : (p.1 == k) with
    | false =>
      simp only [List.map_cons, hp, Bool.false_eq_true, if_false]
      cases hp' : (p.1 == k') with
      | false =>
        simp only [List.find?_cons, hp', ih]
      | true =>
        simp only [List.find?_cons, hp', Option.map_some', hp, Bool.false_eq_true,
          if_false]
    | true =>
      have hpk : p.1 = k := by simpa [beq_iff_eq] using hp
      have hp' : (p.1 == k') = false := by
        rw [hpk]
        exact beq_false_of_ne (fun h => hk h.symm)
      have hkk : ((k, v).1 == k') = false :=
        beq_false_of_ne (fun h => hk h.symm)
      simp only [List.map_cons, hp, if_true, List.find?_cons, hkk, hp', ih]

theorem dictGet_insert_other (d : PyRecord) (k v k' : String) (hk : k' ≠ k) :
    dictGet (dictInsert d k v) k' = dictGet d k' := by
  unfold dictInsert
  by_cases hany : d.any (fun p => p.1 == k)
  · rw [if_pos hany]
    unfold dictGet
    rw [find?_map_insert_other k v k' hk d]
    cases hfind : List.find? (fun p => p.1 == k') d with
    | none => rfl
    | some q =>
      have hq : (q.1 == k') = true :=
        @List.find?_some _ (fun p => p.1 == k') q d hfind
      have hqk : (q.1 == k) = false := by
        have h1 : q.1 = k' := by simpa [beq_iff_eq] using hq
        rw [h1]
        exact beq_false_of_ne hk
      simp only [Option.map_some', hqk, Bool.false_eq_true, if_false]
  · rw [if_neg hany]
    unfold dictGet
    have hone : List.find? (fun p => p.1 == k') [(k, v)] = none := by
      have hkk : ((k, v).1 == k') = false :=
        beq_false_of_ne (fun h => hk h.symm)
      simp only [List.find?_cons, hkk, List.find?_nil]
    rw [List.find?_append, hone, Option.or_none]

theorem dictGet_update (r : PyRecord) (hr : (r.map Prod.fst).Nodup) :
    ∀ (d : PyRecord) (k : String),
      dictGet (dictUpdate d r) k = (dictGet r k).or (dictGet d k) := by
  induction r with
  | nil => intro d k; simp [dictUpdate, dictGet, Option.none_or]
  | cons p r' ih =>
    intro d k
    simp only [List.map_cons, List.nodup_cons] at hr
    have step : dictUpdate d (p :: r') = dictUpdate (dictInsert d p.1 p.2) r' := rfl
    rw [step, ih hr.2]
    by_cases hkk : k = p.1
    · rw [hkk, dictGet_eq_none_of_not_mem_keys r' p.1 hr.1, Option.none_or,
        dictGet_insert_same, dictGet_cons_eq p r' p.1 (by simp)]
      rfl
    · rw [dictGet_insert_other d p.1 p.2 k hkk,
        dictGet_cons_ne p r' k (beq_false_of_ne (fun h => hkk h.symm))]

/-! ## Lock-step merging lemmas -/

theorem pyZip_nil_left {α : Type} (B : List α) : pyZip [([] : List α), B] = [] := rfl

theorem pyZip_nil_right {α : Type} (A : List α) : pyZip [A, ([] : List α)] = [] := by
  cases A with
  | nil => rfl
  | cons a A' => simp [pyZip, pyZipAux]

theorem pyZip_cons_cons {α : Type} (a b : α) (A B : List α) :
    pyZip [a :: A, b :: B] = [a, b] :: pyZip [A, B] := by
  simp [pyZip, pyZipAux]

theorem merge_position_pair_ok (pk : String) (a b : PyRecord) (v : String)
    (ha : dictGet a pk = some v) (hb : dictGet b pk = some v) :
    merge_position pk [a, b] none [] = .ok (dictUpdate (dictUpdate [] a) b) := by
  simp [merge_position, ha, hb, ite_self]

theorem merge_position_pair_err (pk : String) (a b : PyRecord) (v1 v2 : String)
    (ha : dictGet a pk = some v1) (hb : dictGet b pk = some v2)
    (hne : v1 ≠ v2) (hv1 : v1 ≠ "") :
    merge_position pk [a, b] none [] = .error (.primaryKeyNotMatch v1 v2) := by
  simp [merge_position, ha, hb, hv1, hne]

/-- Lock-step merging of two streams whose primary keys agree position by
position: every zipped position merges to `{} |> update(aᵢ) |> update(bᵢ)`,
and no exception is raised.  (`List.zip` truncates at the shorter list,
exactly like `zip(*paginators)`.) -/
theorem merge_two_aligned (pk : String) : ∀ (A B : List PyRecord),
    (∀ i (hA : i < A.length) (hB : i < B.length),
      ∃ v, dictGet (A.get ⟨i, hA⟩) pk = some v ∧
        dictGet (B.get ⟨i, hB⟩) pk = some v) →
    merge_records pk [A, B] =
      ((A.zip B).map (fun p => dictUpdate (dictUpdate [] p.1) p.2), none) := by
  intro A
  induction A with
  | nil => intro B _; rfl
  | cons a A' ih =>
    intro B hkeys
    cases B with
    | nil => simp [merge_records, pyZip_nil_right, merge_records_go,
        List.zip_nil_right]
    | cons b B' =>
      obtain ⟨v, ha, hb⟩ := hkeys 0 (by simp) (by simp)
      simp only [List.get_eq_getElem, List.getElem_cons_zero] at ha hb
      have hrest := ih B' (fun i hA hB => by
        have h := hkeys (i + 1) (by simpa using hA) (by simpa using hB)
        simpa using h)
      unfold merge_records at hrest ⊢
      rw [pyZip_cons_cons]
      unfold merge_records_go
      rw [merge_position_pair_ok pk a b v ha hb, hrest]
      simp [List.zip_cons_cons]

/-- Lock-step merging when the primary keys first disagree at position `j`
(with a truthy key on the first stream there): the positions before `j`
merge and are yielded, position `j` raises `PrimaryKeyNotMatch v1 v2`, and
nothing is yielded for it. -/
theorem merge_two_mismatch (pk v1 v2 : String) (hne : v1 ≠ v2) (hv1 : v1 ≠ "") :
    ∀ (j : ℕ) (A B : List PyRecord) (hjA : j < A.length) (hjB : j < B.length),
    (∀ i (hA : i < A.length) (hB : i < B.length), i < j →
      ∃ v, dictGet (A.get ⟨i, hA⟩) pk = some v ∧
        dictGet (B.get ⟨i, hB⟩) pk = some v) →
    dictGet (A.get ⟨j, hjA⟩) pk = some v1 →
    dictGet (B.get ⟨j, hjB⟩) pk = some v2 →
    (merge_records pk [A, B]).2 = some (.primaryKeyNotMatch v1 v2) ∧
    (merge_records pk [A, B]).1.length = j := by
  intro j
  induction j with
  | zero =>
    intro A B hjA hjB _ h1 h2
    cases A with
    | nil => simp at hjA
    | cons a A' =>
      cases B with
      | nil => simp at hjB
      | cons b B' =>
        simp only [List.get_eq_getElem, List.getElem_cons_zero] at h1 h2
        unfold merge_records
        rw [pyZip_cons_cons]
        unfold merge_records_go
        rw [merge_position_pair_err pk a b v1 v2 h1 h2 hne hv1]
        exact ⟨rfl, rfl⟩
  | succ j ih =>
    intro A B hjA hjB hpre h1 h2
    cases A with
    | nil => simp at hjA
    | cons a A' =>
      cases B with
      | nil => simp at hjB
      | cons b B' =>
        obtain ⟨v, ha, hb⟩ := hpre 0 (by simp) (by simp) (by omega)
        simp only [List.get_eq_getElem, List.getElem_cons_zero] at ha hb
        simp only [List.get_eq_getElem, List.getElem_cons_succ] at h1 h2
        have hrest := ih A' B' (by simpa using hjA) (by simpa using hjB)
          (fun i hA hB hij => by
            have h := hpre (i + 1) (by simpa using hA) (by simpa using hB)
              (by omega)
            simpa using h) h1 h2
        unfold merge_records at hrest ⊢
        rw [pyZip_cons_cons]
        unfold merge_records_go
        rw [merge_position_pair_ok pk a b v ha hb]
        refine ⟨hrest.1, ?_⟩
        simp [hrest.2]

/-! ## C4 -/

/-- C4: two field-chunk streams that return the same primary keys in the
same order merge with no exception into one record per position, and each
merged record holds the union of the two streams' fields — a field present
in the second stream wins (`dict.update` order), otherwise the first
stream's value is used.  Per-record key uniqueness (true of decoded JSON
records) is assumed for the field-union statement.  The spec's concrete
two-record example is the witness below. -/
theorem C4_merge_records_union (pk : String) (A B : List PyRecord)
    (hlen : A.length = B.length)
    (hkeys : ∀ i (hA : i < A.length) (hB : i < B.length),
      ∃ v, dictGet (A.get ⟨i, hA⟩) pk = some v ∧
        dictGet (B.get ⟨i, hB⟩) pk = some v)
    (hnodupA : ∀ r ∈ A, (r.map Prod.fst).Nodup)
    (hnodupB : ∀ r ∈ B, (r.map Prod.fst).Nodup) :
    (merge_records pk [A, B]).2 = none ∧
    (merge_records pk [A, B]).1.length = A.length ∧
    (∀ i (hA : i < A.length) (hB : i < B.length)
       (hi : i < (merge_records pk [A, B]).1.length) (k : String),
      dictGet ((merge_records pk [A, B]).1.get ⟨i, hi⟩) k =
        (dictGet (B.get ⟨i, hB⟩) k).or (dictGet (A.get ⟨i, hA⟩) k)) := by
  have hmain := merge_two_aligned pk A B hkeys
  refine ⟨by rw [hmain], by rw [hmain]; simp [List.length_zip, hlen], ?_⟩
  intro i hA hB hi k
  have h1 : (merge_records pk [A, B]).1 =
      (A.zip B).map (fun p => dictUpdate (dictUpdate [] p.1) p.2) :=
    congrArg Prod.fst hmain
  have hget : (merge_records pk [A, B]).1.get ⟨i, hi⟩ =
      dictUpdate (dictUpdate [] (A.get ⟨i, hA⟩)) (B.get ⟨i, hB⟩) := by
    simp only [List.get_eq_getElem]
    rw [List.getElem_of_eq h1 hi]
    simp only [List.getElem_map, List.getElem_zip]
  have hrB := hnodupB (B.get ⟨i, hB⟩)
    (by simp only [List.get_eq_getElem]; exact List.getElem_mem hB)
  have hrA := hnodupA (A.get ⟨i, hA⟩)
    (by simp only [List.get_eq_getElem]; exact List.getElem_mem hA)
  rw [hget, dictGet_update _ hrB, dictGet_update _ hrA]
  rw [show dictGet [] k = none from rfl, Option.or_none]

/-- Witness for C4: the spec's concrete example, `streamA` and `streamB`
with keys `"1", "2"` in the same order. -/
theorem C4_merge_records_union_witness :
    streamA.length = streamB.length ∧
    (∀ i (hA : i < streamA.length) (hB : i < streamB.length),
      ∃ v, dictGet (streamA.get ⟨i, hA⟩) "Id" = some v ∧
        dictGet (streamB.get ⟨i, hB⟩) "Id" = some v) ∧
    (∀ r ∈ streamA, (r.map Prod.fst).Nodup) ∧
    (∀ r ∈ streamB, (r.map Prod.fst).Nodup) ∧
    ((merge_records "Id" [streamA, streamB]).2 = none ∧
     (merge_records "Id" [streamA, streamB]).1.length = streamA.length ∧
     (∀ i (hA : i < streamA.length) (hB : i < streamB.length)
        (hi : i < (merge_records "Id" [streamA, streamB]).1.length) (k : String),
       dictGet ((merge_records "Id" [streamA, streamB]).1.get ⟨i, hi⟩) k =
         (dictGet (streamB.get ⟨i, hB⟩) k).or
           (dictGet (streamA.get ⟨i, hA⟩) k))) := by
  have hk : ∀ i (hA : i < streamA.length) (hB : i < streamB.length),
      ∃ v, dictGet (streamA.get ⟨i, hA⟩) "Id" = some v ∧
        dictGet (streamB.get ⟨i, hB⟩) "Id" = some v := by
    intro i hA hB
    simp only [streamA, List.length_cons, List.length_nil] at hA
    interval_cases i
    · exact ⟨"1", rfl, rfl⟩
    · exact ⟨"2", rfl, rfl⟩
  exact ⟨by decide, hk, by decide, by decide,
    C4_merge_records_union "Id" streamA streamB (by decide) hk
      (by decide) (by decide)⟩

/-! ## C5 -/

/-- Counterexample for C5: primary keys that differ at a position do not
always raise.  `merge_records` tracks the running key with the CPython
falsiness test `if not primary_key:`; when the first stream's key at the
position is the empty string, the test treats it as unset, silently adopts
the second stream's different key, emits a merged record for the position
and raises nothing. -/
theorem C5_counterexample :
    dictGet [("Id", "")] "Id" ≠ dictGet [("Id", "x")] "Id" ∧
    merge_records "Id" [[[("Id", "")]], [[("Id", "x")]]] =
      ([[("Id", "x")]], none) := by decide

/-- C5 (amended): under lock-step merging, if the primary key first differs
across the two streams at position `j`, and the first stream's key there is
non-empty (truthy — the code's `if not primary_key:` treats `""` like
`None`), then `merge_records` raises `PrimaryKeyNotMatch`, whose message
names both conflicting key values, and emits no merged record for that
position (exactly the `j` earlier positions are emitted). -/
theorem C5_mismatch_raises (pk : String) (A B : List PyRecord) (j : ℕ)
    (hjA : j < A.length) (hjB : j < B.length)
    (hpre : ∀ i (hA : i < A.length) (hB : i < B.length), i < j →
      ∃ v, dictGet (A.get ⟨i, hA⟩) pk = some v ∧
        dictGet (B.get ⟨i, hB⟩) pk = some v)
    (v1 v2 : String)
    (h1 : dictGet (A.get ⟨j, hjA⟩) pk = some v1)
    (h2 : dictGet (B.get ⟨j, hjB⟩) pk = some v2)
    (hne : v1 ≠ v2) (hv1 : v1 ≠ "") :
    (merge_records pk [A, B]).2 = some (.primaryKeyNotMatch v1 v2) ∧
    (merge_records pk [A, B]).1.length = j ∧
    (∃ p s, primaryKeyNotMatchMessage v1 v2 = p ++ (v1 ++ s)) ∧
    (∃ p s, primaryKeyNotMatchMessage v1 v2 = p ++ (v2 ++ s)) := by
  have h := merge_two_mismatch pk v1 v2 hne hv1 j A B hjA hjB hpre h1 h2
  refine ⟨h.1, h.2,
    ⟨"couldn't merge records with different primary keys: ", " and " ++ v2, ?_⟩,
    ⟨"couldn't merge records with different primary keys: " ++ (v1 ++ " and "),
      "", ?_⟩⟩
  · simp [primaryKeyNotMatchMessage, String.append_assoc]
  · simp [primaryKeyNotMatchMessage, String.append_assoc, String.append_empty]

/-- Witness for C5 (amended): the spec's desync example, stream B reordered,
mismatch at position 0 between keys "1" and "2". -/
theorem C5_mismatch_raises_witness :
    (0 < streamA.length) ∧ (0 < streamBrev.length) ∧
    dictGet (streamA.get ⟨0, by decide⟩) "Id" = some "1" ∧
    dictGet (streamBrev.get ⟨0, by decide⟩) "Id" = some "2" ∧
    ("1" : String) ≠ "2" ∧ ("1" : String) ≠ "" ∧
    ((merge_records "Id" [streamA, streamBrev]).2 =
      some (.primaryKeyNotMatch "1" "2") ∧
     (merge_records "Id" [streamA, streamBrev]).1.length = 0 ∧
     (∃ p s, primaryKeyNotMatchMessage "1" "2" = p ++ ("1" ++ s)) ∧
     (∃ p s, primaryKeyNotMatchMessage "1" "2" = p ++ ("2" ++ s))) :=
  ⟨by decide, by decide, by decide, by decide, by decide, by decide,
    C5_mismatch_raises "Id" streamA streamBrev 0 (by decide) (by decide)
      (fun i hA hB hij => absurd hij (Nat.not_lt_zero i))
      "1" "2" (by decide) (by decide) (by decide) (by decide)⟩

/-! ## C10 -/

theorem zip_take_min {α β : Type} : ∀ (A : List α) (B : List β),
    (A.take (min A.length B.length)).zip (B.take (min A.length B.length)) =
      A.zip B := by
  intro A
  induction A with
  | nil => intro B; simp
  | cons a A' ih =>
    intro B
    cases B with
    | nil => simp
    | cons b B' =>
      simp only [List.length_cons, Nat.succ_min_succ, List.take_succ_cons,
        List.zip_cons_cons, ih]

/-- C10: `zip(*paginators)` stops at the shortest stream, so merging two
field-chunk streams of different lengths (with position-wise equal keys on
the common prefix) ends silently after `min` positions: no error is raised,
exactly `min |A| |B|` merged records are emitted, and the whole result
equals the result of merging the truncated streams — records beyond the
shortest stream contribute to no merged record. -/
theorem C10_shortest_stream_truncates (pk : String) (A B : List PyRecord)
    (hkeys : ∀ i (hA : i < A.length) (hB : i < B.length),
      ∃ v, dictGet (A.get ⟨i, hA⟩) pk = some v ∧
        dictGet (B.get ⟨i, hB⟩) pk = some v) :
    (merge_records pk [A, B]).2 = none ∧
    (merge_records pk [A, B]).1.length = min A.length B.length ∧
    merge_records pk [A, B] =
      merge_records pk [A.take (min A.length B.length),
        B.take (min A.length B.length)] := by
  have hmain := merge_two_aligned pk A B hkeys
  have hkeys2 : ∀ i (hA : i < (A.take (min A.length B.length)).length)
      (hB : i < (B.take (min A.length B.length)).length),
      ∃ v, dictGet ((A.take (min A.length B.length)).get ⟨i, hA⟩) pk = some v ∧
        dictGet ((B.take (min A.length B.length)).get ⟨i, hB⟩) pk = some v := by
    intro i hA hB
    simp only [List.length_take] at hA hB
    obtain ⟨v, h1, h2⟩ := hkeys i (by omega) (by omega)
    refine ⟨v, ?_, ?_⟩
    · simp only [List.get_eq_getElem, List.getElem_take]
      simpa using h1
    · simp only [List.get_eq_getElem, List.getElem_take]
      simpa using h2
  have hmain2 := merge_two_aligned pk _ _ hkeys2
  refine ⟨by rw [hmain], by rw [hmain]; simp [List.length_zip], ?_⟩
  rw [hmain, hmain2, zip_take_min]

/-- Witness for C10: stream A has two records, stream B only one; the merge
emits one record and no error. -/
theorem C10_shortest_stream_truncates_witness :
    (∀ i (hA : i < streamA.length)
       (hB : i < ([[("Id", "1"), ("Industry", "Tech")]] : List PyRecord).length),
      ∃ v, dictGet (streamA.get ⟨i, hA⟩) "Id" = some v ∧
        dictGet (([[("Id", "1"), ("Industry", "Tech")]] :
          List PyRecord).get ⟨i, hB⟩) "Id" = some v) ∧
    ((merge_records "Id" [streamA, [[("Id", "1"), ("Industry", "Tech")]]]).2 =
      none ∧
     (merge_records "Id" [streamA, [[("Id", "1"), ("Industry", "Tech")]]]).1.length =
      min streamA.length 1 ∧
     merge_records "Id" [streamA, [[("Id", "1"), ("Industry", "Tech")]]] =
      merge_records "Id" [streamA.take (min streamA.length 1),
        ([[("Id", "1"), ("Industry", "Tech")]] : List PyRecord).take
          (min streamA.length 1)]) := by
  have hk : ∀ i (hA : i < streamA.length)
      (hB : i < ([[("Id", "1"), ("Industry", "Tech")]] : List PyRecord).length),
      ∃ v, dictGet (streamA.get ⟨i, hA⟩) "Id" = some v ∧
        dictGet (([[("Id", "1"), ("Industry", "Tech")]] :
          List PyRecord).get ⟨i, hB⟩) "Id" = some v := by
    intro i hA hB
    simp only [List.length_cons, List.length_nil] at hB
    interval_cases i
    exact ⟨"1", rfl, rfl⟩
  exact ⟨hk, C10_shortest_stream_truncates "Id" streamA
    [[("Id", "1"), ("Industry", "Tech")]] hk⟩

/-! ## C3 -/

/-- C3: the sub-windows of the shrink loop tile the parent window `[s, e)`
exactly, for every shrink factor `k ≥ 2` (in particular 2 through 5): there
are `k` of them, the first starts at `s`, the last ends at `e`, each
sub-window's end is the next one's start, every point of `[s, e)` lies in
some sub-window, and no point lies in two distinct sub-windows. -/
theorem C3_window_tiling (s e : ℚ) (k : ℕ) (hse : s < e) (hk : 2 ≤ k) :
    (shrink_subwindows s e k).length = k ∧
    (∀ h0 : 0 < (shrink_subwindows s e k).length,
      ((shrink_subwindows s e k).get ⟨0, h0⟩).1 = s) ∧
    (∀ hl : k - 1 < (shrink_subwindows s e k).length,
      ((shrink_subwindows s e k).get ⟨k - 1, hl⟩).2 = e) ∧
    (∀ i (h1 : i < (shrink_subwindows s e k).length)
       (h2 : i + 1 < (shrink_subwindows s e k).length),
      ((shrink_subwindows s e k).get ⟨i, h1⟩).2 =
        ((shrink_subwindows s e k).get ⟨i + 1, h2⟩).1) ∧
    (∀ x : ℚ, (s ≤ x ∧ x < e) ↔
      ∃ i, ∃ hi : i < (shrink_subwindows s e k).length,
        ((shrink_subwindows s e k).get ⟨i, hi⟩).1 ≤ x ∧
          x < ((shrink_subwindows s e k).get ⟨i, hi⟩).2) ∧
    (∀ i j (hi : i < (shrink_subwindows s e k).length)
       (hj : j < (shrink_subwindows s e k).length), i ≠ j →
      ∀ x : ℚ, ¬(((shrink_subwindows s e k).get ⟨i, hi⟩).1 ≤ x ∧
        x < ((shrink_subwindows s e k).get ⟨i, hi⟩).2 ∧
        ((shrink_subwindows s e k).get ⟨j, hj⟩).1 ≤ x ∧
        x < ((shrink_subwindows s e k).get ⟨j, hj⟩).2)) := by
  have hk0 : (0 : ℚ) < (k : ℚ) := by
    have : 0 < k := by omega
    exact_mod_cast this
  have hnth : 0 < (e - s) / (k : ℚ) := div_pos (by linarith) hk0
  have hke : (k : ℚ) * ((e - s) / (k : ℚ)) = e - s := by
    field_simp
  have hlen : (shrink_subwindows s e k).length = k := by
    simp only [shrink_subwindows, List.length_map, List.length_range]
  have hget : ∀ i (hi : i < (shrink_subwindows s e k).length),
      (shrink_subwindows s e k).get ⟨i, hi⟩ =
        (s + (i : ℚ) * ((e - s) / (k : ℚ)),
         s + ((i : ℚ) + 1) * ((e - s) / (k : ℚ))) := by
    intro i hi
    simp only [shrink_subwindows, List.get_eq_getElem, List.getElem_map,
      List.getElem_range]
  refine ⟨hlen, ?_, ?_, ?_, ?_, ?_⟩
  · intro h0
    rw [hget 0 h0]
    simp
  · intro hl
    rw [hget (k - 1) hl]
    have hcast : ((k - 1 : ℕ) : ℚ) + 1 = (k : ℚ) := by
      have h1 : 1 ≤ k := by omega
      push_cast [h1]
      ring
    simp only [hcast]
    linarith [hke]
  · intro i h1 h2
    rw [hget i h1, hget (i + 1) h2]
    push_cast
    ring_nf
  · intro x
    constructor
    · rintro ⟨hsx, hxe⟩
      have ht0 : 0 ≤ (x - s) / ((e - s) / (k : ℚ)) :=
        div_nonneg (by linarith) hnth.le
      have htk : (x - s) / ((e - s) / (k : ℚ)) < (k : ℚ) := by
        rw [div_lt_iff hnth]
        linarith [hke]
      have hfl0 : 0 ≤ ⌊(x - s) / ((e - s) / (k : ℚ))⌋ := Int.floor_nonneg.2 ht0
      have hflk : ⌊(x - s) / ((e - s) / (k : ℚ))⌋ < (k : ℤ) := by
        rw [Int.floor_lt]
        exact_mod_cast htk
      refine ⟨⌊(x - s) / ((e - s) / (k : ℚ))⌋.toNat, ?_, ?_⟩
      · rw [hlen]; omega
      · rw [hget _ (by rw [hlen]; omega)]
        have hcast : ((⌊(x - s) / ((e - s) / (k : ℚ))⌋.toNat : ℕ) : ℚ) =
            ((⌊(x - s) / ((e - s) / (k : ℚ))⌋ : ℤ) : ℚ) := by
          exact_mod_cast congrArg (fun z : ℤ => (z : ℚ))
            (Int.toNat_of_nonneg hfl0)
        constructor
        · have hle : ((⌊(x - s) / ((e - s) / (k : ℚ))⌋ : ℤ) : ℚ) ≤
              (x - s) / ((e - s) / (k : ℚ)) := Int.floor_le _
          rw [le_div_iff hnth] at hle
          simp only [hcast]
          linarith
        · have hlt : (x - s) / ((e - s) / (k : ℚ)) <
              ((⌊(x - s) / ((e - s) / (k : ℚ))⌋ : ℤ) : ℚ) + 1 :=
            Int.lt_floor_add_one _
          rw [div_lt_iff hnth] at hlt
          simp only [hcast]
          linarith
    · rintro ⟨i, hi, hxl, hxr⟩
      rw [hget i hi] at hxl hxr
      have hik : i < k := by rw [hlen] at hi; exact hi
      have hi1k : ((i : ℚ) + 1) ≤ (k : ℚ) := by exact_mod_cast hik
      have hpos : 0 ≤ (i : ℚ) * ((e - s) / (k : ℚ)) := by positivity
      constructor
      · linarith
      · have : ((i : ℚ) + 1) * ((e - s) / (k : ℚ)) ≤
            (k : ℚ) * ((e - s) / (k : ℚ)) :=
          mul_le_mul_of_nonneg_right hi1k hnth.le
        linarith [hke]
  · have key : ∀ i j (hi : i < (shrink_subwindows s e k).length)
        (hj : j < (shrink_subwindows s e k).length), i < j →
        ∀ x : ℚ, ¬(((shrink_subwindows s e k).get ⟨i, hi⟩).1 ≤ x ∧
          x < ((shrink_subwindows s e k).get ⟨i, hi⟩).2 ∧
          ((shrink_subwindows s e k).get ⟨j, hj⟩).1 ≤ x ∧
          x < ((shrink_subwindows s e k).get ⟨j, hj⟩).2) := by
      intro i j hi hj hij x hx
      rw [hget i hi] at hx
      rw [hget j hj] at hx
      obtain ⟨-, h2, h3, -⟩ := hx
      have hij1 : ((i : ℚ) + 1) ≤ (j : ℚ) := by exact_mod_cast hij
      have : ((i : ℚ) + 1) * ((e - s) / (k : ℚ)) ≤
          (j : ℚ) * ((e - s) / (k : ℚ)) :=
        mul_le_mul_of_nonneg_right hij1 hnth.le
      linarith
    intro i j hi hj hne x hx
    rcases Nat.lt_or_ge i j with h | h
    · exact key i j hi hj h x hx
    · have hji : j < i := by omega
      exact key j i hj hi hji x ⟨hx.2.2.1, hx.2.2.2, hx.1, hx.2.1⟩

/-- Witness for C3: the window `[0, 172800)` (two days) with the initial
shrink factor 2. -/
theorem C3_window_tiling_witness :
    (0 : ℚ) < 172800 ∧ 2 ≤ 2 ∧
    ((shrink_subwindows 0 172800 2).length = 2 ∧
     (∀ h0 : 0 < (shrink_subwindows 0 172800 2).length,
       ((shrink_subwindows 0 172800 2).get ⟨0, h0⟩).1 = 0) ∧
     (∀ hl : 2 - 1 < (shrink_subwindows 0 172800 2).length,
       ((shrink_subwindows 0 172800 2).get ⟨2 - 1, hl⟩).2 = 172800) ∧
     (∀ i (h1 : i < (shrink_subwindows 0 172800 2).length)
        (h2 : i + 1 < (shrink_subwindows 0 172800 2).length),
       ((shrink_subwindows 0 172800 2).get ⟨i, h1⟩).2 =
         ((shrink_subwindows 0 172800 2).get ⟨i + 1, h2⟩).1) ∧
     (∀ x : ℚ, (0 ≤ x ∧ x < 172800) ↔
       ∃ i, ∃ hi : i < (shrink_subwindows 0 172800 2).length,
         ((shrink_subwindows 0 172800 2).get ⟨i, hi⟩).1 ≤ x ∧
           x < ((shrink_subwindows 0 172800 2).get ⟨i, hi⟩).2) ∧
     (∀ i j (hi : i < (shrink_subwindows 0 172800 2).length)
        (hj : j < (shrink_subwindows 0 172800 2).length), i ≠ j →
       ∀ x : ℚ, ¬(((shrink_subwindows 0 172800 2).get ⟨i, hi⟩).1 ≤ x ∧
         x < ((shrink_subwindows 0 172800 2).get ⟨i, hi⟩).2 ∧
         ((shrink_subwindows 0 172800 2).get ⟨j, hj⟩).1 ≤ x ∧
         x < ((shrink_subwindows 0 172800 2).get ⟨j, hj⟩).2))) :=
  ⟨by decide, by decide, C3_window_tiling 0 172800 2 (by decide) (by decide)⟩

theorem sumLen_append (a b : List String) :
    sumLen (a ++ b) = sumLen a + sumLen b := by
  simp [sumLen]

theorem pyJoin_length (sep : String) : ∀ l : List String, l ≠ [] →
    (pyJoin sep l).length = sumLen l + sep.length * (l.length - 1) := by
  intro l
  induction l with
  | nil => intro h; exact absurd rfl h
  | cons x xs ih =>
    intro _
    cases xs with
    | nil => simp [pyJoin, sumLen]
    | cons y ys =>
      have hy := ih (by simp)
      simp only [pyJoin, String.length_append, hy, List.length_cons,
        Nat.add_sub_cancel]
      have hs : sumLen (x :: y :: ys) = x.length + sumLen (y :: ys) := by
        simp [sumLen]
      rw [hs, Nat.mul_succ]
      omega

theorem pySetAux_eq_self : ∀ (l seen : List String), l.Nodup →
    (∀ x ∈ l, x ∉ seen) → pySetAux l seen = l := by
  intro l
  induction l with
  | nil => intro seen _ _; rfl
  | cons x xs ih =>
    intro seen hnd hdisj
    simp only [List.nodup_cons] at hnd
    unfold pySetAux
    rw [if_neg (hdisj x (by simp))]
    congr 1
    apply ih _ hnd.2
    intro y hy
    simp only [List.mem_cons]
    rintro (h | h)
    · exact hnd.1 (h ▸ hy)
    · exact hdisj y (by simp [hy]) h

theorem pySetList_eq_self (l : List String) (h : l.Nodup) : pySetList l = l :=
  pySetAux_eq_self l [] h (by simp)

theorem field_chunker_aux_flatten (size : ℕ) :
    ∀ (fields chunk : List String) (len : ℕ), fields ≠ [] →
      (field_chunker_aux size fields chunk len).flatten = chunk ++ fields := by
  intro fields
  induction fields with
  | nil => intro chunk len h; exact absurd rfl h
  | cons f rest ih =>
    intro chunk len _
    simp only [field_chunker_aux]
    by_cases hc : len + f.length > size ∨ rest = []
    · rw [if_pos hc]
      cases hrest : rest with
      | nil => simp [field_chunker_aux]
      | cons r rs =>
        rw [List.flatten_cons, ← hrest, ih [] 0 (by simp [hrest])]
        simp
    · rw [if_neg hc]
      push_neg at hc
      rw [ih (chunk ++ [f]) (len + f.length) hc.2]
      simp

theorem field_chunker_aux_bound (size L : ℕ) :
    ∀ (fields chunk : List String) (len : ℕ),
      (∀ f ∈ fields, f.length ≤ L) → len = sumLen chunk → len ≤ size →
      ∀ c ∈ field_chunker_aux size fields chunk len,
        c ≠ [] ∧ sumLen c ≤ size + L ∧ ∀ f ∈ c, f ∈ chunk ++ fields := by
  intro fields
  induction fields with
  | nil => intro chunk len _ _ _ c hc; simp [field_chunker_aux] at hc
  | cons f rest ih =>
    intro chunk len hfl hlen hbound c hc
    simp only [field_chunker_aux] at hc
    by_cases hcond : len + f.length > size ∨ rest = []
    · rw [if_pos hcond] at hc
      rcases List.mem_cons.1 hc with h | h
      · subst h
        refine ⟨by simp, ?_, ?_⟩
        · rw [sumLen_append]
          have h1 : sumLen [f] = f.length := by simp [sumLen]
          have hfL : f.length ≤ L := hfl f (by simp)
          omega
        · intro g hg
          rcases List.mem_append.1 hg with h | h
          · exact List.mem_append.2 (Or.inl h)
          · simp only [List.mem_singleton] at h
            subst h
            simp
      · have hres := ih [] 0 (fun g hg => hfl g (by simp [hg]))
          (by simp [sumLen]) (by omega) c h
        refine ⟨hres.1, hres.2.1, ?_⟩
        intro g hg
        have h3 := hres.2.2 g hg
        simp only [List.nil_append] at h3
        simp [h3]
    · rw [if_neg hcond] at hc
      push_neg at hcond
      have hres := ih (chunk ++ [f]) (len + f.length)
        (fun g hg => hfl g (by simp [hg]))
        (by rw [sumLen_append]; simp [sumLen, hlen]) (by omega) c hc
      refine ⟨hres.1, hres.2.1, ?_⟩
      intro g hg
      have h3 := hres.2.2 g hg
      simpa using h3

theorem field_chunker_nodup (size : ℕ) (fields : List String)
    (hnd : fields.Nodup) (hne : fields ≠ []) :
    ∀ c ∈ field_chunker fields size, c.Nodup := by
  have hfl := field_chunker_aux_flatten size fields [] 0 hne
  have hj : (field_chunker fields size).flatten.Nodup := by
    unfold field_chunker
    rw [hfl]
    simpa using hnd
  exact fun c hc => (List.nodup_flatten.1 hj).1 c hc

theorem mkFieldName_length (i : ℕ) : (mkFieldName i).length = 6 := rfl

theorem digitChar_inj10 : ∀ a, a < 10 → ∀ b, b < 10 →
    Char.ofNat (48 + a) = Char.ofNat (48 + b) → a = b := by decide

theorem digitChar_inj (a b : ℕ) (h : digitChar a = digitChar b) :
    a % 10 = b % 10 := by
  simp only [digitChar] at h
  exact digitChar_inj10 (a % 10) (Nat.mod_lt _ (by omega))
    (b % 10) (Nat.mod_lt _ (by omega)) h

theorem mkFieldName_inj (i j : ℕ) (hi : i < 2000) (hj : j < 2000)
    (h : mkFieldName i = mkFieldName j) : i = j := by
  simp only [mkFieldName] at h
  injection h with hdata
  injection hdata with h1 hdata
  injection hdata with h2 hdata
  injection hdata with h3 hdata
  injection hdata with h4 hdata
  injection hdata with h5 hdata
  injection hdata with h6 _
  have e3 := digitChar_inj _ _ h3
  have e4 := digitChar_inj _ _ h4
  have e5 := digitChar_inj _ _ h5
  have e6 := digitChar_inj _ _ h6
  omega

theorem fields2000_nodup : fields2000.Nodup :=
  List.Nodup.map_on
    (fun x hx y hy hxy =>
      mkFieldName_inj x y (List.mem_range.1 hx) (List.mem_range.1 hy) hxy)
    (List.nodup_range 2000)

theorem fields2000_length : fields2000.length = 2000 := by
  simp [fields2000]

theorem fields2000_ne_nil : fields2000 ≠ [] := by
  intro h
  have := fields2000_length
  rw [h] at this
  simp at this

theorem fields2000_all6 : ∀ f ∈ fields2000, f.length = 6 := by
  intro f hf
  obtain ⟨i, _, rfl⟩ := List.mem_map.1 hf
  rfl

theorem fields2000_sumLen : sumLen fields2000 = 12000 := by
  unfold sumLen fields2000
  rw [List.map_map]
  have hconst : List.map (String.length ∘ mkFieldName) (List.range 2000) =
      List.map (fun _ => (6 : ℕ)) (List.range 2000) :=
    List.map_congr_left (fun i _ => rfl)
  rw [hconst, List.map_const', List.sum_replicate]
  simp

theorem sumLen_const6 : ∀ c : List String, (∀ f ∈ c, f.length = 6) →
    sumLen c = 6 * c.length := by
  intro c
  induction c with
  | nil => intro _; rfl
  | cons f fs ih =>
    intro h
    have h1 : sumLen (f :: fs) = f.length + sumLen fs := by simp [sumLen]
    rw [h1, h f (by simp), ih (fun g hg => h g (by simp [hg]))]
    simp [List.length_cons]
    ring

/-- Rendered length of a query against the Account table (replication key
`SystemModstamp`, primary key `Id`, the concrete sample window, no limit)
over a duplicate-free, non-empty field list: all the fixed parts add up to
147 characters beyond the fields and the commas between them. -/
theorem construct_query_length_account (fl : List String) (hnd : fl.Nodup)
    (hne : fl ≠ []) :
    (construct_query none accountTable fl sampleStart sampleEnd none).length =
      sumLen fl + fl.length + 147 := by
  have hiso1 : (strftime_iso sampleStart).length = 20 := by decide
  have hiso2 : (strftime_iso sampleEnd).length = 20 := by decide
  have hsq : ¬ ((none : Option String) = some "https://squareinc.my.salesforce.com" ∧
      ("Account" : String) ∈ ["Account", "Contact", "Lead", "Opportunity"]) := by
    simp
  have l1 : ("SELECT ").length = 7 := by decide
  have l2 : (" ").length = 1 := by decide
  have l3 : ("FROM ").length = 5 := by decide
  have l4 : ("Account").length = 7 := by decide
  have l5 : ("WHERE ").length = 6 := by decide
  have l6 : ("SystemModstamp").length = 14 := by decide
  have l7 : (" >= ").length = 4 := by decide
  have l8 : (" AND ").length = 5 := by decide
  have l9 : (" < ").length = 3 := by decide
  have l10 : ("ORDER BY ").length = 9 := by decide
  have l11 : (" ASC ").length = 5 := by decide
  have l12 : (",").length = 1 := by decide
  have l13 : ("Id").length = 2 := by decide
  have l14 : (" ASC").length = 4 := by decide
  have l15 : ("").length = 0 := by decide
  have hflen : 1 ≤ fl.length := List.length_pos.2 hne
  simp only [construct_query, accountTable]
  rw [if_neg hsq, pySetList_eq_self fl hnd]
  simp only [String.length_append, hiso1, hiso2, l1, l2, l3, l4, l5, l6, l7,
    l8, l9, l10, l11, l12, l13, l14, l15]
  rw [pyJoin_length "," fl hne, l12]
  omega

/-- C6: for the 2000×6-character field list on a table with primary key
`Id` and replication key `SystemModstamp`, the rendered query exceeds the
10000-character ceiling, and `get_records` plans multiple field-chunk
queries, each rendered chunk query strictly under the ceiling, and each
chunk's field list containing both the primary-key and the replication-key
column. -/
theorem C6_query_splitting :
    MAX_QUERY_LENGTH <
      (construct_query none accountTable fields2000 sampleStart sampleEnd
        none).length ∧
    ∃ chunks queries,
      get_records_plan none accountTable fields2000 sampleStart sampleEnd none =
        GetRecordsPlan.chunked chunks queries ∧
      2 ≤ queries.length ∧
      (∀ q ∈ queries, q.length < MAX_QUERY_LENGTH) ∧
      (∀ c ∈ chunks, "Id" ∈ c ∧ "SystemModstamp" ∈ c) := by
  have hq0 : (construct_query none accountTable fields2000 sampleStart sampleEnd
      none).length = 14147 := by
    rw [construct_query_length_account fields2000 fields2000_nodup
      fields2000_ne_nil, fields2000_sumLen, fields2000_length]
  have hgt : MAX_QUERY_LENGTH < (construct_query none accountTable fields2000
      sampleStart sampleEnd none).length := by
    rw [hq0]
    norm_num [MAX_QUERY_LENGTH]
  have hbound := field_chunker_aux_bound 8000 6 fields2000 [] 0
    (fun f hf => by rw [fields2000_all6 f hf]) rfl (by omega)
  have hflat : (field_chunker fields2000 8000).flatten = fields2000 := by
    unfold field_chunker
    rw [field_chunker_aux_flatten 8000 fields2000 [] 0 fields2000_ne_nil]
    simp
  have hnodups := field_chunker_nodup 8000 fields2000 fields2000_nodup
    fields2000_ne_nil
  have h2 : 2 ≤ (field_chunker fields2000 8000).length := by
    rcases hch : field_chunker fields2000 8000 with _ | ⟨c, cs⟩
    · exfalso
      rw [hch] at hflat
      have hl := congrArg List.length hflat
      simp only [List.flatten_nil, List.length_nil, fields2000_length] at hl
      omega
    · rcases cs with _ | ⟨c2, cs2⟩
      · rw [hch] at hflat
        simp only [List.flatten_cons, List.flatten_nil, List.append_nil]
          at hflat
        have hmem : c ∈ field_chunker_aux 8000 fields2000 [] 0 := by
          have hch2 : field_chunker_aux 8000 fields2000 [] 0 = [c] := hch
          rw [hch2]
          simp
        have hb := hbound c hmem
        have hcsum := hb.2.1
        rw [hflat, fields2000_sumLen] at hcsum
        omega
      · simp [hch, List.length_cons]
  refine ⟨hgt,
    (field_chunker fields2000 8000).map (fun c => c ++ ["Id", "SystemModstamp"]),
    ((field_chunker fields2000 8000).map
      (fun c => c ++ ["Id", "SystemModstamp"])).map
      (fun c => construct_query none accountTable c sampleStart sampleEnd none),
    ?_, ?_, ?_, ?_⟩
  · simp only [get_records_plan]
    rw [if_neg (by rw [hq0]; norm_num [MAX_QUERY_LENGTH])]
    rfl
  · simp only [List.length_map]
    exact h2
  · intro q hq
    obtain ⟨c', hc', rfl⟩ := List.mem_map.1 hq
    obtain ⟨c, hc, rfl⟩ := List.mem_map.1 hc'
    obtain ⟨hcne, hcsum, hcmem⟩ := hbound c hc
    have hc6 : ∀ f ∈ c, f.length = 6 := fun f hf =>
      fields2000_all6 f (by simpa using hcmem f hf)
    have hcnd : c.Nodup := hnodups c hc
    have hid : "Id" ∉ c := fun h => absurd (hc6 _ h) (by decide)
    have hsm : "SystemModstamp" ∉ c := fun h => absurd (hc6 _ h) (by decide)
    have hnd' : (c ++ ["Id", "SystemModstamp"]).Nodup := by
      refine List.Nodup.append hcnd (by decide) ?_
      intro a ha hamem
      simp only [List.mem_cons, List.mem_singleton, List.not_mem_nil,
        or_false] at hamem
      rcases hamem with rfl | rfl
      · exact hid ha
      · exact hsm ha
    have hne' : c ++ ["Id", "SystemModstamp"] ≠ [] := by simp
    rw [construct_query_length_account _ hnd' hne']
    have h16 : sumLen ["Id", "SystemModstamp"] = 16 := by decide
    have hsum' : sumLen (c ++ ["Id", "SystemModstamp"]) = sumLen c + 16 := by
      rw [sumLen_append, h16]
    have hlen' : (c ++ ["Id", "SystemModstamp"]).length = c.length + 2 := by
      simp
    have hclen : c.length ≤ 1334 := by
      have := sumLen_const6 c hc6
      omega
    rw [hsum', hlen']
    simp only [MAX_QUERY_LENGTH]
    omega
  · intro c' hc'
    obtain ⟨c, hc, rfl⟩ := List.mem_map.1 hc'
    constructor <;> simp
